import Mathlib

/-!
Verification of `scripts/expand-refs.py`: the recursive `$ref` expansion
algorithm for OpenAPI documents.  The document tree, the JSON-pointer
resolver and the expansion engine are embedded as executable Lean
functions, and the behavioural properties of the spec are proved about
them.
-/

set_option maxHeartbeats 1000000
set_option maxRecDepth 100000

namespace ExpandRefs

/-- A parsed JSON/YAML document tree: scalars, ordered sequences and
ordered mappings with string keys (insertion order preserved). -/
inductive Doc where
  | null : Doc
  | bool (b : Bool) : Doc
  | num (n : Int) : Doc
  | str (s : String) : Doc
  | arr (items : List Doc) : Doc
  | obj (kvs : List (String × Doc)) : Doc
deriving Repr

mutual

/-- Structural equality of document trees (Python `==` on parsed JSON). -/
def beqDoc : Doc → Doc → Bool
  | Doc.null, Doc.null => true
  | Doc.bool b, Doc.bool b' => decide (b = b')
  | Doc.num n, Doc.num n' => decide (n = n')
  | Doc.str s, Doc.str s' => decide (s = s')
  | Doc.arr xs, Doc.arr xs' => beqArr xs xs'
  | Doc.obj kvs, Doc.obj kvs' => beqKVs kvs kvs'
  | _, _ => false

def beqKVs : List (String × Doc) → List (String × Doc) → Bool
  | [], [] => true
  | (k, v) :: rest, (k', v') :: rest' =>
      decide (k = k') && beqDoc v v' && beqKVs rest rest'
  | _, _ => false

def beqArr : List Doc → List Doc → Bool
  | [], [] => true
  | d :: rest, d' :: rest' => beqDoc d d' && beqArr rest rest'
  | _, _ => false

end

theorem beq_iff :
    ∀ n : Nat,
      (∀ a b : Doc, sizeOf a = n → ((beqDoc a b = true) ↔ a = b)) ∧
      (∀ l l' : List (String × Doc), sizeOf l = n → ((beqKVs l l' = true) ↔ l = l')) ∧
      (∀ xs xs' : List Doc, sizeOf xs = n → ((beqArr xs xs' = true) ↔ xs = xs')) := by
  intro n
  induction n using Nat.strong_induction_on with
  | _ n ih =>
    refine ⟨?_, ?_, ?_⟩
    · intro a b hn
      subst hn
      cases a with
      | null => cases b <;> simp [beqDoc]
      | bool bb => cases b <;> simp [beqDoc]
      | num nn => cases b <;> simp [beqDoc]
      | str ss => cases b <;> simp [beqDoc]
      | arr xs =>
        cases b <;> simp [beqDoc]
        exact (ih (sizeOf xs) (by simp <;> omega)).2.2 xs _ rfl
      | obj kvs =>
        cases b <;> simp [beqDoc]
        exact (ih (sizeOf kvs) (by simp <;> omega)).2.1 kvs _ rfl
    · intro l l' hn
      subst hn
      cases l with
      | nil => cases l' <;> simp [beqKVs]
      | cons kv rest =>
        obtain ⟨k, v⟩ := kv
        cases l' with
        | nil => simp [beqKVs]
        | cons kv' rest' =>
          obtain ⟨k', v'⟩ := kv'
          have hv := (ih (sizeOf v) (by simp <;> omega)).1 v v' rfl
          have hr := (ih (sizeOf rest) (by simp <;> omega)).2.1 rest rest' rfl
          simp [beqKVs, hv, hr] <;> tauto
    · intro xs xs' hn
      subst hn
      cases xs with
      | nil => cases xs' <;> simp [beqArr]
      | cons d rest =>
        cases xs' with
        | nil => simp [beqArr]
        | cons d' rest' =>
          have hd := (ih (sizeOf d) (by simp <;> omega)).1 d d' rfl
          have hr := (ih (sizeOf rest) (by simp <;> omega)).2.2 rest rest' rfl
          simp [beqArr, hd, hr]

instance : DecidableEq Doc :=
  fun a b => decidable_of_iff _ ((beq_iff (sizeOf a)).1 a b rfl)

mutual

/-- Whether any mapping node in the tree carries the reserved `$ref` key. -/
def containsRef : Doc → Bool
  | Doc.obj kvs => containsRefKVs kvs
  | Doc.arr items => containsRefArr items
  | _ => false

def containsRefKVs : List (String × Doc) → Bool
  | [] => false
  | (k, v) :: rest => decide (k = "$ref") || containsRef v || containsRefKVs rest

def containsRefArr : List Doc → Bool
  | [] => false
  | d :: rest => containsRef d || containsRefArr rest

end

example : containsRef (Doc.obj [("a", Doc.obj [("$ref", Doc.str "#/x")])]) = true := rfl
example : containsRef (Doc.obj [("a", Doc.arr [Doc.num 3, Doc.null])]) = false := rfl
example : (Doc.obj [("a", Doc.null)]) = (Doc.obj [("a", Doc.null)]) := by decide
example : (Doc.obj [("a", Doc.null)]) ≠ (Doc.obj [("b", Doc.null)]) := by decide

/-- `MAX_DEPTH = 10  # Prevent infinite recursion` -/
def MAX_DEPTH : Nat := 10

/-- Python `repr` of a string: double quotes when the text holds a single
quote but no double quote, single quotes otherwise (escape sequences for
exotic characters are not modelled; no message in scope needs them). -/
def pyReprStr (s : String) : String :=
  if s.data.contains '\'' && !(s.data.contains '"') then
    "\"" ++ s ++ "\""
  else
    "'" ++ s ++ "'"

/-- Python type names as they appear in error messages. -/
def pyTypeName : Doc → String
  | Doc.null => "NoneType"
  | Doc.bool _ => "bool"
  | Doc.num _ => "int"
  | Doc.str _ => "str"
  | Doc.arr _ => "list"
  | Doc.obj _ => "dict"

mutual

/-- Python `repr` of a parsed document value. -/
def pyRepr : Doc → String
  | Doc.null => "None"
  | Doc.bool b => cond b "True" "False"
  | Doc.num n => toString n
  | Doc.str s => pyReprStr s
  | Doc.arr items => "[" ++ pyReprArr items ++ "]"
  | Doc.obj kvs => "\x7b" ++ pyReprKVs kvs ++ "\x7d"

def pyReprArr : List Doc → String
  | [] => ""
  | [d] => pyRepr d
  | d :: rest => pyRepr d ++ ", " ++ pyReprArr rest

def pyReprKVs : List (String × Doc) → String
  | [] => ""
  | [(k, v)] => pyReprStr k ++ ": " ++ pyRepr v
  | (k, v) :: rest => pyReprStr k ++ ": " ++ pyRepr v ++ ", " ++ pyReprKVs rest

end

/-- Python `str` (used by f-string interpolation): identity on strings,
`repr`-style formatting on every other value. -/
def pyStr : Doc → String
  | Doc.str s => s
  | d => pyRepr d

/-- One pass of Python `str.replace` for a two-character pattern,
replacing non-overlapping occurrences left to right. -/
def pyReplace2 (p1 p2 r : Char) : List Char → List Char
  | c1 :: c2 :: rest =>
      if c1 = p1 ∧ c2 = p2 then r :: pyReplace2 p1 p2 r rest
      else c1 :: pyReplace2 p1 p2 r (c2 :: rest)
  | l => l

/-- `part.replace('~1', '/').replace('~0', '~')  # JSON pointer escaping` -/
def unescape_segment (part : List Char) : List Char :=
  pyReplace2 '~' '0' '~' (pyReplace2 '~' '1' '/' part)

/-- Python `str.split('/')`: split on every slash, keeping empty pieces. -/
def pySplitSlash : List Char → List (List Char)
  | [] => [[]]
  | c :: rest =>
    if c = '/' then [] :: pySplitSlash rest
    else
      match pySplitSlash rest with
      | [] => [[c]]
      | seg :: segs => (c :: seg) :: segs

/-- ASCII whitespace accepted by Python `int()`. -/
def pyIsSpace (c : Char) : Bool :=
  c = ' ' || c = '\t' || c = '\n' || c = '\x0d' || c = '\x0b' || c = '\x0c'

/-- Digits of a Python integer literal after the first one: single
underscores are allowed between digits. -/
def pyDigitsGo (acc : Nat) : List Char → Option Nat
  | [] => some acc
  | '_' :: c :: rest =>
      if c.isDigit then pyDigitsGo (acc * 10 + (c.toNat - '0'.toNat)) rest else none
  | c :: rest =>
      if c.isDigit then pyDigitsGo (acc * 10 + (c.toNat - '0'.toNat)) rest else none

def pyDigits : List Char → Option Nat
  | c :: rest => if c.isDigit then pyDigitsGo (c.toNat - '0'.toNat) rest else none
  | [] => none

/-- Python `int(str)`: optional surrounding whitespace, optional sign,
then a digit sequence with optional single underscores between digits. -/
def pyInt (s : String) : Option Int :=
  let stripped := ((s.data.dropWhile pyIsSpace).reverse.dropWhile pyIsSpace).reverse
  match stripped with
  | '+' :: rest => (pyDigits rest).map (fun n => (n : Int))
  | '-' :: rest => (pyDigits rest).map (fun n => -(n : Int))
  | rest => (pyDigits rest).map (fun n => (n : Int))

/-- Python list subscription `xs[i]`, including negative indices. -/
def pyListGet (items : List Doc) (i : Int) : Option Doc :=
  if 0 ≤ i then items.get? i.toNat
  else if -i ≤ (items.length : Int) then items.get? (items.length - (-i).toNat)
  else none

/-- The pointer walk inside `resolve_ref_pointer`: unescape each segment,
then index mappings by key and sequences by parsed integer.  Error
strings are Python's `str(e)` for the exception each branch raises. -/
def resolveWalk (ref_s : String) (parts : List (List Char)) (current : Doc) : Except String Doc :=
  match parts with
  | [] => Except.ok current
  | part :: rest =>
    let part' := String.mk (unescape_segment part)
    match current with
    | Doc.obj kvs =>
      match kvs.find? (fun kv => decide (kv.1 = part')) with
      | some kv => resolveWalk ref_s rest kv.2
      | none => Except.error (pyReprStr part')
    | Doc.arr items =>
      match pyInt part' with
      | some i =>
        match pyListGet items i with
        | some d => resolveWalk ref_s rest d
        | none => Except.error "list index out of range"
      | none => Except.error ("invalid literal for int() with base 10: " ++ pyReprStr part')
    | _ => Except.error ("Cannot resolve path " ++ ref_s)

/-- `resolve_ref_pointer(ref_path, root_doc)`: resolve a reference like
`#/components/schemas/Error` against the document root.  A non-string
reference value fails the way Python's `ref_path.startswith` call does. -/
def resolve_ref_pointer (ref_path : Doc) (root_doc : Doc) : Except String Doc :=
  match ref_path with
  | Doc.str s =>
    match s.data with
    | '#' :: '/' :: rest => resolveWalk s (pySplitSlash rest) root_doc
    | _ => Except.error ("External references not supported: " ++ s)
  | d => Except.error ("'" ++ pyTypeName d ++ "' object has no attribute 'startswith'")

example :
    resolve_ref_pointer (Doc.str "#/a/b") (Doc.obj [("a", Doc.obj [("b", Doc.num 7)])]) =
      Except.ok (Doc.num 7) := rfl

example :
    resolve_ref_pointer (Doc.str "#/a/1") (Doc.obj [("a", Doc.arr [Doc.num 1, Doc.num 2])]) =
      Except.ok (Doc.num 2) := rfl

example :
    resolve_ref_pointer (Doc.str "#/a/-1") (Doc.obj [("a", Doc.arr [Doc.num 1, Doc.num 2])]) =
      Except.ok (Doc.num 2) := rfl

example :
    resolve_ref_pointer (Doc.str "http://x") Doc.null =
      Except.error "External references not supported: http://x" := rfl

example :
    resolve_ref_pointer (Doc.str "#/missing") (Doc.obj []) =
      Except.error "'missing'" := rfl

example :
    resolve_ref_pointer (Doc.str "#/a/x") (Doc.obj [("a", Doc.arr [])]) =
      Except.error "invalid literal for int() with base 10: 'x'" := rfl

example :
    resolve_ref_pointer (Doc.str "#/a/b") (Doc.obj [("a", Doc.num 3)]) =
      Except.error "Cannot resolve path #/a/b" := rfl

example : String.mk (unescape_segment "~01".data) = "~1" := rfl
example : String.mk (unescape_segment "~1".data) = "/" := rfl

/-- The per-key override of the Python dict merge: a key of `resolved`
takes the `other_props` value when the key reappears there. -/
def pyDictOverride (b : List (String × Doc)) (kv : String × Doc) : String × Doc :=
  match b.find? (fun kv2 => decide (kv2.1 = kv.1)) with
  | some kv2 => (kv.1, kv2.2)
  | none => kv

/-- `{**resolved, **other_props}`: Python dict-merge semantics — keys of
`resolved` keep their position (value overridden when the key reappears
in `other_props`), remaining `other_props` keys are appended in order. -/
def pyDictMerge (a b : List (String × Doc)) : List (String × Doc) :=
  a.map (pyDictOverride b) ++
  b.filter (fun kv2 => !(a.any (fun kv => decide (kv.1 = kv2.1))))

/-- `copy.deepcopy`: on immutable values a deep copy is the value itself. -/
def deepcopy (d : Doc) : Doc := d

/-- Lines 66–69 of the script: overlay the sibling keys onto the resolved
node when it is a mapping, otherwise keep the resolved node unchanged. -/
def mergeOther (resolved : Doc) (other_props : List (String × Doc)) : Doc :=
  match resolved with
  | Doc.obj rkvs => Doc.obj (pyDictMerge rkvs other_props)
  | _ => resolved

theorem snd_mem_of_mem_enumFrom {α : Type _} :
    ∀ (l : List α) (n : Nat) (p : Nat × α), p ∈ l.enumFrom n → p.2 ∈ l := by
  intro l
  induction l with
  | nil => intro n p h; simp [List.enumFrom] at h
  | cons a t ih =>
    intro n p h
    simp only [List.enumFrom, List.mem_cons] at h
    rcases h with h | h
    · subst h; simp
    · exact List.mem_cons_of_mem _ (ih (n + 1) p h)

/-- `expand_refs(obj, root_doc, path, depth, visited_paths)`: the
recursive expansion engine, translated branch for branch from the
script.  (The Python defaults are `path="root"`, `depth=0` and a fresh
empty visited set; callers below always pass those explicitly.) -/
def expand_refs (obj : Doc) (root_doc : Doc) (path : String) (depth : Nat)
    (visited_paths : List String) : Doc :=
  if h : MAX_DEPTH < depth then
    Doc.obj [("type", Doc.str "object"),
             ("description", Doc.str ("Max expansion depth reached at " ++ path))]
  else
    match obj with
    | Doc.obj kvs =>
      match kvs.find? (fun kv => decide (kv.1 = "$ref")) with
      | some refkv =>
        let ref_path := refkv.2
        let tracking_key := path ++ ":" ++ pyStr ref_path
        if tracking_key ∈ visited_paths then
          Doc.obj [("type", Doc.str "object"),
                   ("description", Doc.str ("Circular reference: " ++ pyStr ref_path))]
        else
          match resolve_ref_pointer ref_path root_doc with
          | Except.error e =>
            Doc.obj [("type", Doc.str "object"),
                     ("description",
                      Doc.str ("Error resolving " ++ pyStr ref_path ++ ": " ++ e))]
          | Except.ok resolved0 =>
            let resolved := deepcopy resolved0
            let other_props := kvs.filter (fun kv => !(decide (kv.1 = "$ref")))
            let merged :=
              if other_props.isEmpty then resolved else mergeOther resolved other_props
            expand_refs merged root_doc (path ++ "->" ++ pyStr ref_path) (depth + 1)
              (tracking_key :: visited_paths)
      | none =>
        Doc.obj (kvs.attach.map (fun kv =>
          (kv.1.1, expand_refs kv.1.2 root_doc (path ++ "." ++ kv.1.1) depth visited_paths)))
    | Doc.arr items =>
      Doc.arr (items.enum.attach.map (fun it =>
        expand_refs it.1.2 root_doc (path ++ "[" ++ toString it.1.1 ++ "]") depth
          visited_paths))
    | d => d
termination_by (MAX_DEPTH + 1 - depth, sizeOf obj)
decreasing_by
  · apply Prod.Lex.left
    simp only [MAX_DEPTH] at h ⊢
    omega
  · apply Prod.Lex.right
    obtain ⟨⟨k, v⟩, hkv⟩ := kv
    have hm := List.sizeOf_lt_of_mem hkv
    simp at hm ⊢
    omega
  · apply Prod.Lex.right
    have hmem := snd_mem_of_mem_enumFrom items 0 it.1 it.2
    have hm := List.sizeOf_lt_of_mem hmem
    simp at hm ⊢
    omega

/-- The dict comprehension of `expand_refs`, with the recursive expansion
of each value abstracted as `recur`: expand each value with the key
appended to the location, collecting the circular-branch flags. -/
def goKVs (recur : Doc → Doc → String → Nat → List String → Option (Doc × Bool)) :
    List (String × Doc) → Doc → String → Nat → List String →
      Option (List (String × Doc) × Bool)
  | [], _, _, _, _ => some ([], false)
  | (k, v) :: rest, root_doc, path, depth, visited_paths =>
    match recur v root_doc (path ++ "." ++ k) depth visited_paths with
    | none => none
    | some (v', flag1) =>
      match goKVs recur rest root_doc path depth visited_paths with
      | none => none
      | some (rest', flag2) => some ((k, v') :: rest', flag1 || flag2)

/-- The list comprehension of `expand_refs`, with the recursive expansion
abstracted as `recur`: expand each item with its `enumerate` index
appended to the location. -/
def goArr (recur : Doc → Doc → String → Nat → List String → Option (Doc × Bool)) :
    List Doc → Doc → String → Nat → Nat → List String → Option (List Doc × Bool)
  | [], _, _, _, _, _ => some ([], false)
  | d :: rest, root_doc, path, i, depth, visited_paths =>
    match recur d root_doc (path ++ "[" ++ toString i ++ "]") depth visited_paths with
    | none => none
    | some (d', flag1) =>
      match goArr recur rest root_doc path (i + 1) depth visited_paths with
      | none => none
      | some (rest', flag2) => some (d' :: rest', flag1 || flag2)

/-- Fuel-indexed evaluator mirroring `expand_refs` branch for branch
(`none` = fuel exhausted before the recursion finished).  The Bool
records whether the circular-reference branch was taken anywhere in the
call — instrumentation used below to settle its reachability. -/
def expandFuel : Nat → Doc → Doc → String → Nat → List String → Option (Doc × Bool)
  | 0, _, _, _, _, _ => none
  | Nat.succ fuel, obj, root_doc, path, depth, visited_paths =>
    if MAX_DEPTH < depth then
      some (Doc.obj [("type", Doc.str "object"),
                     ("description", Doc.str ("Max expansion depth reached at " ++ path))],
            false)
    else
      match obj with
      | Doc.obj kvs =>
        match kvs.find? (fun kv => decide (kv.1 = "$ref")) with
        | some refkv =>
          let ref_path := refkv.2
          let tracking_key := path ++ ":" ++ pyStr ref_path
          if tracking_key ∈ visited_paths then
            some (Doc.obj [("type", Doc.str "object"),
                           ("description", Doc.str ("Circular reference: " ++ pyStr ref_path))],
                  true)
          else
            match resolve_ref_pointer ref_path root_doc with
            | Except.error e =>
              some (Doc.obj [("type", Doc.str "object"),
                             ("description",
                              Doc.str ("Error resolving " ++ pyStr ref_path ++ ": " ++ e))],
                    false)
            | Except.ok resolved0 =>
              let resolved := deepcopy resolved0
              let other_props := kvs.filter (fun kv => !(decide (kv.1 = "$ref")))
              let merged :=
                if other_props.isEmpty then resolved else mergeOther resolved other_props
              expandFuel fuel merged root_doc (path ++ "->" ++ pyStr ref_path) (depth + 1)
                (tracking_key :: visited_paths)
        | none =>
          match goKVs (expandFuel fuel) kvs root_doc path depth visited_paths with
          | some (kvs', flag) => some (Doc.obj kvs', flag)
          | none => none
      | Doc.arr items =>
        match goArr (expandFuel fuel) items root_doc path 0 depth visited_paths with
        | some (items', flag) => some (Doc.arr items', flag)
        | none => none
      | d => some (d, false)

example :
    expandFuel 10
      (Doc.obj [("$ref", Doc.str "#/components/schemas/Pet"), ("description", Doc.str "override")])
      (Doc.obj [("components", Doc.obj [("schemas", Doc.obj [("Pet",
        Doc.obj [("type", Doc.str "object"), ("description", Doc.str "original")])])])])
      "root" 0 [] =
    some (Doc.obj [("type", Doc.str "object"), ("description", Doc.str "override")], false) := rfl

example :
    expandFuel 10 (Doc.arr [Doc.num 1, Doc.obj [("a", Doc.null)]]) Doc.null "root" 0 [] =
    some (Doc.arr [Doc.num 1, Doc.obj [("a", Doc.null)]], false) := rfl

theorem expandFuel_zero (obj root_doc : Doc) (path : String) (depth : Nat)
    (visited_paths : List String) :
    expandFuel 0 obj root_doc path depth visited_paths = none := rfl

theorem expandFuel_succ (fuel : Nat) (obj root_doc : Doc) (path : String) (depth : Nat)
    (visited_paths : List String) :
    expandFuel (fuel + 1) obj root_doc path depth visited_paths =
      (if MAX_DEPTH < depth then
        some (Doc.obj [("type", Doc.str "object"),
                       ("description", Doc.str ("Max expansion depth reached at " ++ path))],
              false)
      else
        match obj with
        | Doc.obj kvs =>
          match kvs.find? (fun kv => decide (kv.1 = "$ref")) with
          | some refkv =>
            let ref_path := refkv.2
            let tracking_key := path ++ ":" ++ pyStr ref_path
            if tracking_key ∈ visited_paths then
              some (Doc.obj [("type", Doc.str "object"),
                             ("description", Doc.str ("Circular reference: " ++ pyStr ref_path))],
                    true)
            else
              match resolve_ref_pointer ref_path root_doc with
              | Except.error e =>
                some (Doc.obj [("type", Doc.str "object"),
                               ("description",
                                Doc.str ("Error resolving " ++ pyStr ref_path ++ ": " ++ e))],
                      false)
              | Except.ok resolved0 =>
                let resolved := deepcopy resolved0
                let other_props := kvs.filter (fun kv => !(decide (kv.1 = "$ref")))
                let merged :=
                  if other_props.isEmpty then resolved else mergeOther resolved other_props
                expandFuel fuel merged root_doc (path ++ "->" ++ pyStr ref_path) (depth + 1)
                  (tracking_key :: visited_paths)
          | none =>
            match goKVs (expandFuel fuel) kvs root_doc path depth visited_paths with
            | some (kvs', flag) => some (Doc.obj kvs', flag)
            | none => none
        | Doc.arr items =>
          match goArr (expandFuel fuel) items root_doc path 0 depth visited_paths with
          | some (items', flag) => some (Doc.arr items', flag)
          | none => none
        | d => some (d, false)) := rfl

theorem goKVs_mono {recur1 recur2 : Doc → Doc → String → Nat → List String → Option (Doc × Bool)}
    (hmono : ∀ v root p d vis r, recur1 v root p d vis = some r → recur2 v root p d vis = some r) :
    ∀ kvs root_doc path depth visited r,
      goKVs recur1 kvs root_doc path depth visited = some r →
      goKVs recur2 kvs root_doc path depth visited = some r := by
  intro kvs
  induction kvs with
  | nil => intro root path depth visited r h; simpa [goKVs] using h
  | cons kv rest ih =>
    intro root path depth visited r h
    obtain ⟨k, v⟩ := kv
    rw [goKVs] at h ⊢
    cases hv : recur1 v root (path ++ "." ++ k) depth visited with
    | none => simp [hv] at h
    | some vf =>
      obtain ⟨v', f1⟩ := vf
      simp only [hv] at h
      cases hrest : goKVs recur1 rest root path depth visited with
      | none => simp [hrest] at h
      | some rf =>
        obtain ⟨rest', f2⟩ := rf
        simp only [hrest] at h
        simp only [hmono _ _ _ _ _ _ hv, ih root path depth visited _ hrest]
        exact h

theorem goArr_mono {recur1 recur2 : Doc → Doc → String → Nat → List String → Option (Doc × Bool)}
    (hmono : ∀ v root p d vis r, recur1 v root p d vis = some r → recur2 v root p d vis = some r) :
    ∀ items root_doc path i depth visited r,
      goArr recur1 items root_doc path i depth visited = some r →
      goArr recur2 items root_doc path i depth visited = some r := by
  intro items
  induction items with
  | nil => intro root path i depth visited r h; simpa [goArr] using h
  | cons d rest ih =>
    intro root path i depth visited r h
    rw [goArr] at h ⊢
    cases hv : recur1 d root (path ++ "[" ++ toString i ++ "]") depth visited with
    | none => simp [hv] at h
    | some vf =>
      obtain ⟨d', f1⟩ := vf
      simp only [hv] at h
      cases hrest : goArr recur1 rest root path (i + 1) depth visited with
      | none => simp [hrest] at h
      | some rf =>
        obtain ⟨rest', f2⟩ := rf
        simp only [hrest] at h
        simp only [hmono _ _ _ _ _ _ hv, ih root path (i + 1) depth visited _ hrest]
        exact h

theorem expandFuel_succ_mono :
    ∀ f obj root_doc path depth visited r,
      expandFuel f obj root_doc path depth visited = some r →
      expandFuel (f + 1) obj root_doc path depth visited = some r := by
  intro f
  induction f with
  | zero => intro obj root path depth visited r h; simp [expandFuel_zero] at h
  | succ f ih =>
    intro obj root path depth visited r h
    rw [expandFuel_succ] at h ⊢
    by_cases hd : MAX_DEPTH < depth
    · simpa [hd] using h
    · simp only [if_neg hd] at h ⊢
      cases obj with
      | obj kvs =>
        cases hfind : kvs.find? (fun kv => decide (kv.1 = "$ref")) with
        | some refkv =>
          simp only [hfind] at h ⊢
          by_cases htrack : (path ++ ":" ++ pyStr refkv.2) ∈ visited
          · simpa [htrack] using h
          · simp only [if_neg htrack] at h ⊢
            cases hres : resolve_ref_pointer refkv.2 root with
            | error e => simpa [hres] using h
            | ok resolved0 =>
              simp only [hres] at h ⊢
              exact ih _ _ _ _ _ _ h
        | none =>
          simp only [hfind] at h ⊢
          cases hkv : goKVs (expandFuel f) kvs root path depth visited with
          | none => simp [hkv] at h
          | some rf =>
            simp only [hkv] at h
            simp only [goKVs_mono (fun v ro p d vis r => ih v ro p d vis r) kvs root path depth
              visited rf hkv]
            exact h
      | arr items =>
        cases hkv : goArr (expandFuel f) items root path 0 depth visited with
        | none => simp [hkv] at h
        | some rf =>
          simp only [hkv] at h
          simp only [goArr_mono (fun v ro p d vis r => ih v ro p d vis r) items root path 0 depth
            visited rf hkv]
          exact h
      | null => exact h
      | bool b => exact h
      | num n => exact h
      | str s => exact h

theorem expandFuel_mono {f g : Nat} (hfg : f ≤ g) :
    ∀ {obj root_doc path depth visited r},
      expandFuel f obj root_doc path depth visited = some r →
      expandFuel g obj root_doc path depth visited = some r := by
  obtain ⟨k, rfl⟩ : ∃ k, g = f + k := ⟨g - f, by omega⟩
  clear hfg
  induction k with
  | zero => intro obj root path depth visited r h; exact h
  | succ k ih =>
    intro obj root path depth visited r h
    exact expandFuel_succ_mono (f + k) obj root path depth visited r (ih h)

section StepLemmas

variable {obj root_doc : Doc} {path : String} {depth : Nat} {visited_paths : List String}

/-- Guard branch: past the depth limit the placeholder comes back at once. -/
theorem expand_refs_guard (h : MAX_DEPTH < depth) :
    expand_refs obj root_doc path depth visited_paths =
      Doc.obj [("type", Doc.str "object"),
               ("description", Doc.str ("Max expansion depth reached at " ++ path))] := by
  rw [expand_refs.eq_def]
  simp [h]

/-- Scalar branches: primitive values come back unchanged. -/
theorem expand_refs_scalar (hd : ¬ MAX_DEPTH < depth)
    (h1 : ∀ kvs, obj ≠ Doc.obj kvs) (h2 : ∀ items, obj ≠ Doc.arr items) :
    expand_refs obj root_doc path depth visited_paths = obj := by
  rw [expand_refs.eq_def]
  rw [dif_neg hd]
  cases obj with
  | obj kvs => exact absurd rfl (h1 kvs)
  | arr items => exact absurd rfl (h2 items)
  | null => rfl
  | bool b => rfl
  | num n => rfl
  | str s => rfl

/-- Circular-reference branch. -/
theorem expand_refs_circular {kvs : List (String × Doc)} {refkv : String × Doc}
    (hd : ¬ MAX_DEPTH < depth)
    (hfind : kvs.find? (fun kv => decide (kv.1 = "$ref")) = some refkv)
    (hmem : (path ++ ":" ++ pyStr refkv.2) ∈ visited_paths) :
    expand_refs (Doc.obj kvs) root_doc path depth visited_paths =
      Doc.obj [("type", Doc.str "object"),
               ("description", Doc.str ("Circular reference: " ++ pyStr refkv.2))] := by
  rw [expand_refs.eq_def]
  rw [dif_neg hd]
  simp only [hfind, if_pos hmem]

/-- Failed-resolution branch: the error placeholder is inlined. -/
theorem expand_refs_error {kvs : List (String × Doc)} {refkv : String × Doc} {e : String}
    (hd : ¬ MAX_DEPTH < depth)
    (hfind : kvs.find? (fun kv => decide (kv.1 = "$ref")) = some refkv)
    (hmem : (path ++ ":" ++ pyStr refkv.2) ∉ visited_paths)
    (hres : resolve_ref_pointer refkv.2 root_doc = Except.error e) :
    expand_refs (Doc.obj kvs) root_doc path depth visited_paths =
      Doc.obj [("type", Doc.str "object"),
               ("description", Doc.str ("Error resolving " ++ pyStr refkv.2 ++ ": " ++ e))] := by
  rw [expand_refs.eq_def]
  rw [dif_neg hd]
  simp only [hfind, if_neg hmem, hres]

/-- Successful dereference: merge the sibling keys over a copy of the
target and recurse with `depth + 1` and the tracking key recorded. -/
theorem expand_refs_refstep {kvs : List (String × Doc)} {refkv : String × Doc} {resolved0 : Doc}
    (hd : ¬ MAX_DEPTH < depth)
    (hfind : kvs.find? (fun kv => decide (kv.1 = "$ref")) = some refkv)
    (hmem : (path ++ ":" ++ pyStr refkv.2) ∉ visited_paths)
    (hres : resolve_ref_pointer refkv.2 root_doc = Except.ok resolved0) :
    expand_refs (Doc.obj kvs) root_doc path depth visited_paths =
      expand_refs
        (if (kvs.filter (fun kv => !(decide (kv.1 = "$ref")))).isEmpty then deepcopy resolved0
         else mergeOther (deepcopy resolved0) (kvs.filter (fun kv => !(decide (kv.1 = "$ref")))))
        root_doc (path ++ "->" ++ pyStr refkv.2) (depth + 1)
        ((path ++ ":" ++ pyStr refkv.2) :: visited_paths) := by
  rw [expand_refs.eq_def]
  rw [dif_neg hd]
  simp only [hfind, if_neg hmem, hres]

/-- Mapping without `$ref`: rebuild the mapping, expanding every value at
the same depth with an extended location. -/
theorem expand_refs_dict {kvs : List (String × Doc)}
    (hd : ¬ MAX_DEPTH < depth)
    (hfind : kvs.find? (fun kv => decide (kv.1 = "$ref")) = none) :
    expand_refs (Doc.obj kvs) root_doc path depth visited_paths =
      Doc.obj (kvs.map (fun kv =>
        (kv.1, expand_refs kv.2 root_doc (path ++ "." ++ kv.1) depth visited_paths))) := by
  rw [expand_refs.eq_def]
  rw [dif_neg hd]
  simp only [hfind]
  exact congrArg Doc.obj (List.attach_map_val kvs (fun kv =>
    (kv.1, expand_refs kv.2 root_doc (path ++ "." ++ kv.1) depth visited_paths)))

/-- Sequence: rebuild the sequence, expanding every element at the same
depth with the `enumerate` index in the location. -/
theorem expand_refs_arr {items : List Doc}
    (hd : ¬ MAX_DEPTH < depth) :
    expand_refs (Doc.arr items) root_doc path depth visited_paths =
      Doc.arr (items.enum.map (fun it =>
        expand_refs it.2 root_doc (path ++ "[" ++ toString it.1 ++ "]") depth visited_paths)) := by
  rw [expand_refs.eq_def]
  rw [dif_neg hd]
  exact congrArg Doc.arr (List.attach_map_val items.enum (fun it =>
    expand_refs it.2 root_doc (path ++ "[" ++ toString it.1 ++ "]") depth visited_paths))

end StepLemmas

theorem goKVs_exists {kvs : List (String × Doc)} {root_doc : Doc} {path : String} {depth : Nat}
    {visited : List String}
    (h : ∀ kv ∈ kvs, ∃ f b, expandFuel f kv.2 root_doc (path ++ "." ++ kv.1) depth visited =
      some (expand_refs kv.2 root_doc (path ++ "." ++ kv.1) depth visited, b)) :
    ∃ f flag, goKVs (expandFuel f) kvs root_doc path depth visited =
      some (kvs.map (fun kv =>
        (kv.1, expand_refs kv.2 root_doc (path ++ "." ++ kv.1) depth visited)), flag) := by
  induction kvs with
  | nil => exact ⟨0, false, rfl⟩
  | cons kv rest ih =>
    obtain ⟨k, v⟩ := kv
    obtain ⟨f1, b1, h1⟩ := h (k, v) (List.mem_cons_self _ _)
    obtain ⟨f2, b2, h2⟩ :=
      ih (fun kv hkv => h kv (List.mem_cons_of_mem _ hkv))
    refine ⟨max f1 f2, b1 || b2, ?_⟩
    rw [goKVs]
    rw [expandFuel_mono (Nat.le_max_left f1 f2) h1]
    rw [goKVs_mono (fun v ro p d vis r hr => expandFuel_mono (Nat.le_max_right f1 f2) hr)
      rest root_doc path depth visited _ h2]
    simp

theorem goArr_exists {items : List Doc} {root_doc : Doc} {path : String} {depth : Nat}
    {visited : List String} :
    ∀ (i : Nat),
      (∀ p ∈ items.enumFrom i, ∃ f b,
        expandFuel f p.2 root_doc (path ++ "[" ++ toString p.1 ++ "]") depth visited =
          some (expand_refs p.2 root_doc (path ++ "[" ++ toString p.1 ++ "]") depth visited, b)) →
      ∃ f flag, goArr (expandFuel f) items root_doc path i depth visited =
        some ((items.enumFrom i).map (fun p =>
          expand_refs p.2 root_doc (path ++ "[" ++ toString p.1 ++ "]") depth visited), flag) := by
  induction items with
  | nil => intro i h; exact ⟨0, false, rfl⟩
  | cons d rest ih =>
    intro i h
    obtain ⟨f1, b1, h1⟩ := h (i, d) (by simp [List.enumFrom])
    obtain ⟨f2, b2, h2⟩ :=
      ih (i + 1) (fun p hp => h p (by simp [List.enumFrom]; right; exact hp))
    refine ⟨max f1 f2, b1 || b2, ?_⟩
    rw [goArr]
    rw [expandFuel_mono (Nat.le_max_left f1 f2) h1]
    rw [goArr_mono (fun v ro p d vis r hr => expandFuel_mono (Nat.le_max_right f1 f2) hr)
      rest root_doc path (i + 1) depth visited _ h2]
    simp [List.enumFrom]

/-- Totality and agreement: with enough fuel, the fueled evaluator
returns exactly the value of `expand_refs`.  This is the termination
statement for the expansion engine. -/
theorem expandFuel_agrees :
    ∀ (obj root_doc : Doc) (path : String) (depth : Nat) (visited_paths : List String),
      ∃ f b, expandFuel f obj root_doc path depth visited_paths =
        some (expand_refs obj root_doc path depth visited_paths, b) := by
  intro obj root_doc path depth visited_paths
  induction obj, root_doc, path, depth, visited_paths using expand_refs.induct with
  | case1 obj root path depth visited h =>
    refine ⟨1, false, ?_⟩
    rw [expand_refs_guard h, expandFuel_succ]
    simp [h]
  | case2 root path depth visited hd kvs refkv hfind rp tk hmem =>
    refine ⟨1, true, ?_⟩
    rw [expand_refs_circular hd hfind hmem, expandFuel_succ]
    simp only [if_neg hd, hfind, if_pos hmem]
  | case3 root path depth visited hd kvs refkv hfind rp tk hmem e hres =>
    refine ⟨1, false, ?_⟩
    rw [expand_refs_error hd hfind hmem hres, expandFuel_succ]
    simp only [if_neg hd, hfind, if_neg hmem, hres]
  | case4 root path depth visited hd kvs refkv hfind rp tk hmem resolved0 hres rv op mg ih =>
    obtain ⟨f, b, hf⟩ := ih
    refine ⟨f + 1, b, ?_⟩
    rw [expand_refs_refstep hd hfind hmem hres, expandFuel_succ]
    simp only [if_neg hd, hfind, if_neg hmem, hres]
    simpa using hf
  | case5 root path depth visited hd kvs hfind ih =>
    obtain ⟨F, flag, hgo⟩ := goKVs_exists (fun kv hkv => ih ⟨kv, hkv⟩)
    refine ⟨F + 1, flag, ?_⟩
    rw [expand_refs_dict hd hfind, expandFuel_succ]
    simp only [if_neg hd, hfind, hgo]
  | case6 root path depth visited hd items ih =>
    obtain ⟨F, flag, hgo⟩ := goArr_exists 0 (fun p hp => ih ⟨p, hp⟩)
    refine ⟨F + 1, flag, ?_⟩
    rw [expand_refs_arr hd, expandFuel_succ]
    simp only [if_neg hd]
    rw [show items.enum = List.enumFrom 0 items from rfl, hgo]
  | case7 obj root path depth visited hd h1 h2 =>
    refine ⟨1, false, ?_⟩
    rw [expand_refs_scalar hd (fun kvs h => h1 kvs h) (fun items h => h2 items h)]
    cases obj with
    | obj kvs => exact absurd rfl (h1 kvs)
    | arr items => exact absurd rfl (h2 items)
    | null => rw [expandFuel_succ]; simp [hd]
    | bool b => rw [expandFuel_succ]; simp [hd]
    | num n => rw [expandFuel_succ]; simp [hd]
    | str s => rw [expandFuel_succ]; simp [hd]

/-- Soundness of the fueled evaluator: any successful run computes the
value of `expand_refs`. -/
theorem expandFuel_sound {f : Nat} {obj root_doc : Doc} {path : String} {depth : Nat}
    {visited_paths : List String} {r : Doc} {b : Bool}
    (h : expandFuel f obj root_doc path depth visited_paths = some (r, b)) :
    expand_refs obj root_doc path depth visited_paths = r := by
  obtain ⟨g, b', hg⟩ := expandFuel_agrees obj root_doc path depth visited_paths
  have h1 := expandFuel_mono (Nat.le_max_left f g) h
  have h2 := expandFuel_mono (Nat.le_max_right f g) hg
  rw [h1] at h2
  injection h2 with h3
  injection h3 with h4 h5
  exact h4.symm

/-- A tracking key admissible in the visited set of a call at location
`pcs`: it was formed at a strict ancestor location — a proper prefix of
`pcs` whose following character is not a colon. -/
def VentryOk (pcs : List Char) (key : String) : Prop :=
  ∃ p r c rest, key.data = p ++ ':' :: r ∧ pcs = p ++ c :: rest ∧ c ≠ ':'

/-- Invariant tying `visited_paths` to the current location string. -/
def VisitedOk (path : String) (visited : List String) : Prop :=
  ∀ key ∈ visited, VentryOk path.data key

theorem VisitedOk_nil (path : String) : VisitedOk path [] := by
  intro key hk
  simp at hk

theorem VentryOk_extend {pcs : List Char} {t : List Char} {key : String}
    (h : VentryOk pcs key) : VentryOk (pcs ++ t) key := by
  obtain ⟨p, r, c, rest, hk, hp, hc⟩ := h
  exact ⟨p, r, c, rest ++ t, hk, by rw [hp]; simp, hc⟩

theorem VisitedOk_extend {path t : String} {visited : List String}
    (h : VisitedOk path visited) : VisitedOk (path ++ t) visited := by
  intro key hk
  rw [String.data_append]
  exact VentryOk_extend (h key hk)

/-- The current tracking key is never already in the visited set: every
recorded key belongs to a strict ancestor location. -/
theorem VisitedOk_not_mem {path s : String} {visited : List String}
    (h : VisitedOk path visited) : (path ++ ":" ++ s) ∉ visited := by
  intro hmem
  obtain ⟨p, r, c, rest, hk, hp, hc⟩ := h _ hmem
  rw [String.data_append, String.data_append] at hk
  have hcolon : (":" : String).data = [':'] := rfl
  rw [hcolon, hp] at hk
  rw [List.append_assoc, List.append_assoc] at hk
  have hlist := List.append_cancel_left hk
  simp at hlist
  exact hc hlist.1

/-- Following a reference keeps the invariant: the location grows by a
segment starting with `-`, and the freshly recorded tracking key sits at
the old location followed by a `-`. -/
theorem VisitedOk_push {path s : String} {visited : List String}
    (h : VisitedOk path visited) :
    VisitedOk (path ++ "->" ++ s) ((path ++ ":" ++ s) :: visited) := by
  intro key hk
  rcases List.mem_cons.mp hk with rfl | hk'
  · refine ⟨path.data, s.data, '-', '>' :: s.data, ?_, ?_, by decide⟩
    · rw [String.data_append, String.data_append]
      simp
    · rw [String.data_append, String.data_append]
      simp
  · rw [String.data_append, String.data_append]
    have := h key hk'
    rw [List.append_assoc]
    exact VentryOk_extend this

theorem goKVs_flag {recur : Doc → Doc → String → Nat → List String → Option (Doc × Bool)}
    {root_doc : Doc}
    (hrec : ∀ v p d vis r b, VisitedOk p vis → recur v root_doc p d vis = some (r, b) →
      b = false) :
    ∀ kvs path depth visited l b, VisitedOk path visited →
      goKVs recur kvs root_doc path depth visited = some (l, b) → b = false := by
  intro kvs
  induction kvs with
  | nil =>
    intro path depth visited l b hinv h
    rw [goKVs] at h
    simp at h
    exact h.2
  | cons kv rest ih =>
    intro path depth visited l b hinv h
    obtain ⟨k, v⟩ := kv
    rw [goKVs] at h
    cases hv : recur v root_doc (path ++ "." ++ k) depth visited with
    | none => simp [hv] at h
    | some vf =>
      obtain ⟨v', f1⟩ := vf
      simp only [hv] at h
      cases hrest : goKVs recur rest root_doc path depth visited with
      | none => simp [hrest] at h
      | some rf =>
        obtain ⟨rest', f2⟩ := rf
        simp only [hrest] at h
        simp at h
        have h1 : f1 = false := hrec v _ depth visited v' f1 (VisitedOk_extend (VisitedOk_extend hinv)) hv
        have h2 : f2 = false := ih path depth visited rest' f2 hinv hrest
        rw [← h.2, h1, h2]
        rfl

theorem goArr_flag {recur : Doc → Doc → String → Nat → List String → Option (Doc × Bool)}
    {root_doc : Doc}
    (hrec : ∀ v p d vis r b, VisitedOk p vis → recur v root_doc p d vis = some (r, b) →
      b = false) :
    ∀ items path i depth visited l b, VisitedOk path visited →
      goArr recur items root_doc path i depth visited = some (l, b) → b = false := by
  intro items
  induction items with
  | nil =>
    intro path i depth visited l b hinv h
    rw [goArr] at h
    simp at h
    exact h.2
  | cons d rest ih =>
    intro path i depth visited l b hinv h
    rw [goArr] at h
    cases hv : recur d root_doc (path ++ "[" ++ toString i ++ "]") depth visited with
    | none => simp [hv] at h
    | some vf =>
      obtain ⟨d', f1⟩ := vf
      simp only [hv] at h
      cases hrest : goArr recur rest root_doc path (i + 1) depth visited with
      | none => simp [hrest] at h
      | some rf =>
        obtain ⟨rest', f2⟩ := rf
        simp only [hrest] at h
        simp at h
        have h1 : f1 = false := hrec d _ depth visited d' f1 (VisitedOk_extend (VisitedOk_extend (VisitedOk_extend hinv))) hv
        have h2 : f2 = false := ih path (i + 1) depth visited rest' f2 hinv hrest
        rw [← h.2, h1, h2]
        rfl

/-- Under the location invariant the instrumentation flag never turns
true: the circular-reference branch is unreachable. -/
theorem expandFuel_flag :
    ∀ (f : Nat) (obj root_doc : Doc) (path : String) (depth : Nat) (visited : List String)
      (r : Doc) (b : Bool), VisitedOk path visited →
      expandFuel f obj root_doc path depth visited = some (r, b) → b = false := by
  intro f
  induction f with
  | zero => intro obj root path depth visited r b hinv h; simp [expandFuel_zero] at h
  | succ f ih =>
    intro obj root path depth visited r b hinv h
    rw [expandFuel_succ] at h
    by_cases hd : MAX_DEPTH < depth
    · rw [if_pos hd] at h
      simp at h
      exact h.2
    · rw [if_neg hd] at h
      cases obj with
      | obj kvs =>
        cases hfind : kvs.find? (fun kv => decide (kv.1 = "$ref")) with
        | some refkv =>
          simp only [hfind] at h
          by_cases hmem : (path ++ ":" ++ pyStr refkv.2) ∈ visited
          · exact absurd hmem (VisitedOk_not_mem hinv)
          · rw [if_neg hmem] at h
            cases hres : resolve_ref_pointer refkv.2 root with
            | error e =>
              simp only [hres] at h
              simp at h
              exact h.2
            | ok resolved0 =>
              simp only [hres] at h
              exact ih _ root _ _ _ r b (VisitedOk_push hinv) h
        | none =>
          simp only [hfind] at h
          cases hgo : goKVs (expandFuel f) kvs root path depth visited with
          | none => simp [hgo] at h
          | some lb =>
            obtain ⟨l, bb⟩ := lb
            simp only [hgo] at h
            simp at h
            rw [← h.2]
            exact goKVs_flag (fun v p d vis r' b' hi hx => ih v root p d vis r' b' hi hx)
              kvs path depth visited l bb hinv hgo
      | arr items =>
        cases hgo : goArr (expandFuel f) items root path 0 depth visited with
        | none => simp [hgo] at h
        | some lb =>
          obtain ⟨l, bb⟩ := lb
          simp only [hgo] at h
          simp at h
          rw [← h.2]
          exact goArr_flag (fun v p d vis r' b' hi hx => ih v root p d vis r' b' hi hx)
            items path 0 depth visited l bb hinv hgo
      | null => simp at h; exact h.2
      | bool bb => simp at h; exact h.2
      | num n => simp at h; exact h.2
      | str s => simp at h; exact h.2

theorem containsRefKVs_false {l : List (String × Doc)} :
    containsRefKVs l = false ↔ ∀ kv ∈ l, kv.1 ≠ "$ref" ∧ containsRef kv.2 = false := by
  induction l with
  | nil => simp [containsRefKVs]
  | cons kv rest ih =>
    obtain ⟨k, v⟩ := kv
    simp [containsRefKVs, ih]

theorem containsRefArr_false {l : List Doc} :
    containsRefArr l = false ↔ ∀ d ∈ l, containsRef d = false := by
  induction l with
  | nil => simp [containsRefArr]
  | cons d rest ih => simp [containsRefArr, ih]

theorem find?_ref_none_of_noRef {kvs : List (String × Doc)}
    (h : containsRefKVs kvs = false) :
    kvs.find? (fun kv => decide (kv.1 = "$ref")) = none := by
  rw [List.find?_eq_none]
  intro kv hkv
  simp
  exact (containsRefKVs_false.mp h kv hkv).1

theorem goKVs_noref {recur : Doc → Doc → String → Nat → List String → Option (Doc × Bool)}
    {root_doc : Doc}
    (hrec : ∀ v p d vis r b, recur v root_doc p d vis = some (r, b) → containsRef r = false) :
    ∀ kvs path depth visited l b,
      goKVs recur kvs root_doc path depth visited = some (l, b) →
      l.map Prod.fst = kvs.map Prod.fst ∧ ∀ kv ∈ l, containsRef kv.2 = false := by
  intro kvs
  induction kvs with
  | nil =>
    intro path depth visited l b h
    rw [goKVs] at h
    simp at h
    obtain ⟨h1, h2⟩ := h
    subst h1
    simp
  | cons kv rest ih =>
    intro path depth visited l b h
    obtain ⟨k, v⟩ := kv
    rw [goKVs] at h
    cases hv : recur v root_doc (path ++ "." ++ k) depth visited with
    | none => simp [hv] at h
    | some vf =>
      obtain ⟨v', f1⟩ := vf
      simp only [hv] at h
      cases hrest : goKVs recur rest root_doc path depth visited with
      | none => simp [hrest] at h
      | some rf =>
        obtain ⟨rest', f2⟩ := rf
        simp only [hrest] at h
        simp at h
        obtain ⟨hr, hrest'two⟩ := ih path depth visited rest' f2 hrest
        refine ⟨?_, ?_⟩
        · rw [← h.1]
          simp [hr]
        · rw [← h.1]
          intro kv hkv
          rcases List.mem_cons.mp hkv with rfl | hkv'
          · exact hrec v _ _ _ _ _ hv
          · exact hrest'two kv hkv'

theorem goArr_noref {recur : Doc → Doc → String → Nat → List String → Option (Doc × Bool)}
    {root_doc : Doc}
    (hrec : ∀ v p d vis r b, recur v root_doc p d vis = some (r, b) → containsRef r = false) :
    ∀ items path i depth visited l b,
      goArr recur items root_doc path i depth visited = some (l, b) →
      ∀ d ∈ l, containsRef d = false := by
  intro items
  induction items with
  | nil =>
    intro path i depth visited l b h
    rw [goArr] at h
    simp at h
    obtain ⟨h1, h2⟩ := h
    subst h1
    simp
  | cons d rest ih =>
    intro path i depth visited l b h
    rw [goArr] at h
    cases hv : recur d root_doc (path ++ "[" ++ toString i ++ "]") depth visited with
    | none => simp [hv] at h
    | some vf =>
      obtain ⟨d', f1⟩ := vf
      simp only [hv] at h
      cases hrest : goArr recur rest root_doc path (i + 1) depth visited with
      | none => simp [hrest] at h
      | some rf =>
        obtain ⟨rest', f2⟩ := rf
        simp only [hrest] at h
        simp at h
        rw [← h.1]
        intro x hx
        rcases List.mem_cons.mp hx with rfl | hx'
        · exact hrec d _ _ _ _ _ hv
        · exact ih path (i + 1) depth visited rest' f2 hrest x hx'

/-- Whatever the fueled evaluator returns carries no `$ref` key anywhere. -/
theorem expandFuel_noref :
    ∀ (f : Nat) (obj root_doc : Doc) (path : String) (depth : Nat) (visited : List String)
      (r : Doc) (b : Bool),
      expandFuel f obj root_doc path depth visited = some (r, b) → containsRef r = false := by
  intro f
  induction f with
  | zero => intro obj root path depth visited r b h; simp [expandFuel_zero] at h
  | succ f ih =>
    intro obj root path depth visited r b h
    rw [expandFuel_succ] at h
    by_cases hd : MAX_DEPTH < depth
    · rw [if_pos hd] at h
      simp at h
      rw [← h.1]
      rfl
    · rw [if_neg hd] at h
      cases obj with
      | obj kvs =>
        cases hfind : kvs.find? (fun kv => decide (kv.1 = "$ref")) with
        | some refkv =>
          simp only [hfind] at h
          by_cases hmem : (path ++ ":" ++ pyStr refkv.2) ∈ visited
          · rw [if_pos hmem] at h
            simp at h
            rw [← h.1]
            rfl
          · rw [if_neg hmem] at h
            cases hres : resolve_ref_pointer refkv.2 root with
            | error e =>
              simp only [hres] at h
              simp at h
              rw [← h.1]
              rfl
            | ok resolved0 =>
              simp only [hres] at h
              exact ih _ root _ _ _ r b h
        | none =>
          simp only [hfind] at h
          cases hgo : goKVs (expandFuel f) kvs root path depth visited with
          | none => simp [hgo] at h
          | some lb =>
            obtain ⟨l, bb⟩ := lb
            simp only [hgo] at h
            simp at h
            obtain ⟨hkeys, hvals⟩ :=
              goKVs_noref (fun v p d vis r' b' hx => ih v root p d vis r' b' hx)
                kvs path depth visited l bb hgo
            rw [← h.1]
            show containsRefKVs l = false
            rw [containsRefKVs_false]
            intro kv hkv
            refine ⟨?_, hvals kv hkv⟩
            have : kv.1 ∈ l.map Prod.fst := List.mem_map_of_mem _ hkv
            rw [hkeys] at this
            obtain ⟨kv0, hkv0, hfst⟩ := List.mem_map.mp this
            have := List.find?_eq_none.mp hfind kv0 hkv0
            simp at this
            rw [← hfst]
            exact this
      | arr items =>
        cases hgo : goArr (expandFuel f) items root path 0 depth visited with
        | none => simp [hgo] at h
        | some lb =>
          obtain ⟨l, bb⟩ := lb
          simp only [hgo] at h
          simp at h
          rw [← h.1]
          show containsRefArr l = false
          rw [containsRefArr_false]
          exact goArr_noref (fun v p d vis r' b' hx => ih v root p d vis r' b' hx)
            items path 0 depth visited l bb hgo
      | null => simp at h; rw [← h.1]; rfl
      | bool bb => simp at h; rw [← h.1]; rfl
      | num n => simp at h; rw [← h.1]; rfl
      | str s => simp at h; rw [← h.1]; rfl

theorem goKVs_id {recur : Doc → Doc → String → Nat → List String → Option (Doc × Bool)}
    {root_doc : Doc} {depth : Nat}
    (hrec : ∀ v p vis r b, containsRef v = false → recur v root_doc p depth vis = some (r, b) →
      r = v) :
    ∀ kvs path visited l b,
      (∀ kv ∈ kvs, containsRef (Prod.snd kv) = false) →
      goKVs recur kvs root_doc path depth visited = some (l, b) → l = kvs := by
  intro kvs
  induction kvs with
  | nil =>
    intro path visited l b hfree h
    rw [goKVs] at h
    simp at h
    exact h.1
  | cons kv rest ih =>
    intro path visited l b hfree h
    obtain ⟨k, v⟩ := kv
    rw [goKVs] at h
    cases hv : recur v root_doc (path ++ "." ++ k) depth visited with
    | none => simp [hv] at h
    | some vf =>
      obtain ⟨v', f1⟩ := vf
      simp only [hv] at h
      cases hrest : goKVs recur rest root_doc path depth visited with
      | none => simp [hrest] at h
      | some rf =>
        obtain ⟨rest', f2⟩ := rf
        simp only [hrest] at h
        simp at h
        rw [← h.1]
        have h1 : v' = v :=
          hrec v _ visited v' f1 (hfree (k, v) (List.mem_cons_self _ _)) hv
        have h2 : rest' = rest :=
          ih path visited rest' f2 (fun kv hkv => hfree kv (List.mem_cons_of_mem _ hkv))
            hrest
        rw [h1, h2]

theorem goArr_id {recur : Doc → Doc → String → Nat → List String → Option (Doc × Bool)}
    {root_doc : Doc} {depth : Nat}
    (hrec : ∀ v p vis r b, containsRef v = false → recur v root_doc p depth vis = some (r, b) →
      r = v) :
    ∀ items path i visited l b,
      (∀ d ∈ items, containsRef d = false) →
      goArr recur items root_doc path i depth visited = some (l, b) → l = items := by
  intro items
  induction items with
  | nil =>
    intro path i visited l b hfree h
    rw [goArr] at h
    simp at h
    exact h.1
  | cons d rest ih =>
    intro path i visited l b hfree h
    rw [goArr] at h
    cases hv : recur d root_doc (path ++ "[" ++ toString i ++ "]") depth visited with
    | none => simp [hv] at h
    | some vf =>
      obtain ⟨d', f1⟩ := vf
      simp only [hv] at h
      cases hrest : goArr recur rest root_doc path (i + 1) depth visited with
      | none => simp [hrest] at h
      | some rf =>
        obtain ⟨rest', f2⟩ := rf
        simp only [hrest] at h
        simp at h
        rw [← h.1]
        have h1 : d' = d := hrec d _ visited d' f1 (hfree d (List.mem_cons_self _ _)) hv
        have h2 : rest' = rest :=
          ih path (i + 1) visited rest' f2 (fun x hx => hfree x (List.mem_cons_of_mem _ hx))
            hrest
        rw [h1, h2]

/-- On a tree without `$ref` keys and below the depth limit, expansion
is the identity. -/
theorem expandFuel_id :
    ∀ (f : Nat) (obj root_doc : Doc) (path : String) (depth : Nat) (visited : List String)
      (r : Doc) (b : Bool),
      containsRef obj = false → ¬ MAX_DEPTH < depth →
      expandFuel f obj root_doc path depth visited = some (r, b) → r = obj := by
  intro f
  induction f with
  | zero => intro obj root path depth visited r b hfree hd h; simp [expandFuel_zero] at h
  | succ f ih =>
    intro obj root path depth visited r b hfree hd h
    rw [expandFuel_succ] at h
    rw [if_neg hd] at h
    cases obj with
    | obj kvs =>
      have hkvs : containsRefKVs kvs = false := hfree
      have hfind : kvs.find? (fun kv => decide (kv.1 = "$ref")) = none :=
        find?_ref_none_of_noRef hkvs
      simp only [hfind] at h
      cases hgo : goKVs (expandFuel f) kvs root path depth visited with
      | none => simp [hgo] at h
      | some lb =>
        obtain ⟨l, bb⟩ := lb
        simp only [hgo] at h
        simp at h
        rw [← h.1]
        have : l = kvs :=
          goKVs_id (fun v p vis r' b' hfr hx => ih v root p depth vis r' b' hfr hd hx)
            kvs path visited l bb
            (fun kv hkv => (containsRefKVs_false.mp hkvs kv hkv).2) hgo
        rw [this]
    | arr items =>
      have hitems : containsRefArr items = false := hfree
      cases hgo : goArr (expandFuel f) items root path 0 depth visited with
      | none => simp [hgo] at h
      | some lb =>
        obtain ⟨l, bb⟩ := lb
        simp only [hgo] at h
        simp at h
        rw [← h.1]
        have : l = items :=
          goArr_id (fun v p vis r' b' hfr hx => ih v root p depth vis r' b' hfr hd hx)
            items path 0 visited l bb (containsRefArr_false.mp hitems) hgo
        rw [this]
    | null => simp at h; exact h.1.symm
    | bool bb => simp at h; exact h.1.symm
    | num n => simp at h; exact h.1.symm
    | str s => simp at h; exact h.1.symm

/-- State-threading rendering of the dict comprehension: the root
document is passed through the sequential evaluation as explicit state
(each value expansion receives the root state left by the previous one). -/
def goStKVs (recur : Doc → Doc → String → Nat → List String → Option (Doc × Doc)) :
    List (String × Doc) → Doc → String → Nat → List String →
      Option (List (String × Doc) × Doc)
  | [], root_doc, _, _, _ => some ([], root_doc)
  | (k, v) :: rest, root_doc, path, depth, visited_paths =>
    match recur v root_doc (path ++ "." ++ k) depth visited_paths with
    | none => none
    | some (v', root1) =>
      match goStKVs recur rest root1 path depth visited_paths with
      | none => none
      | some (rest', root2) => some ((k, v') :: rest', root2)

/-- State-threading rendering of the list comprehension. -/
def goStArr (recur : Doc → Doc → String → Nat → List String → Option (Doc × Doc)) :
    List Doc → Doc → String → Nat → Nat → List String → Option (List Doc × Doc)
  | [], root_doc, _, _, _, _ => some ([], root_doc)
  | d :: rest, root_doc, path, i, depth, visited_paths =>
    match recur d root_doc (path ++ "[" ++ toString i ++ "]") depth visited_paths with
    | none => none
    | some (d', root1) =>
      match goStArr recur rest root1 path (i + 1) depth visited_paths with
      | none => none
      | some (rest', root2) => some (d' :: rest', root2)

/-- `expand_refs` with the root document threaded through the execution
as explicit mutable state: every branch returns, beside its result, the
root state after the call.  The code only ever reads the root (pointer
resolution and deep copy), so no branch writes a new state. -/
def expandStFuel : Nat → Doc → Doc → String → Nat → List String → Option (Doc × Doc)
  | 0, _, _, _, _, _ => none
  | Nat.succ fuel, obj, root_doc, path, depth, visited_paths =>
    if MAX_DEPTH < depth then
      some (Doc.obj [("type", Doc.str "object"),
                     ("description", Doc.str ("Max expansion depth reached at " ++ path))],
            root_doc)
    else
      match obj with
      | Doc.obj kvs =>
        match kvs.find? (fun kv => decide (kv.1 = "$ref")) with
        | some refkv =>
          let ref_path := refkv.2
          let tracking_key := path ++ ":" ++ pyStr ref_path
          if tracking_key ∈ visited_paths then
            some (Doc.obj [("type", Doc.str "object"),
                           ("description", Doc.str ("Circular reference: " ++ pyStr ref_path))],
                  root_doc)
          else
            match resolve_ref_pointer ref_path root_doc with
            | Except.error e =>
              some (Doc.obj [("type", Doc.str "object"),
                             ("description",
                              Doc.str ("Error resolving " ++ pyStr ref_path ++ ": " ++ e))],
                    root_doc)
            | Except.ok resolved0 =>
              let resolved := deepcopy resolved0
              let other_props := kvs.filter (fun kv => !(decide (kv.1 = "$ref")))
              let merged :=
                if other_props.isEmpty then resolved else mergeOther resolved other_props
              expandStFuel fuel merged root_doc (path ++ "->" ++ pyStr ref_path) (depth + 1)
                (tracking_key :: visited_paths)
        | none =>
          match goStKVs (expandStFuel fuel) kvs root_doc path depth visited_paths with
          | some (kvs', root') => some (Doc.obj kvs', root')
          | none => none
      | Doc.arr items =>
        match goStArr (expandStFuel fuel) items root_doc path 0 depth visited_paths with
        | some (items', root') => some (Doc.arr items', root')
        | none => none
      | d => some (d, root_doc)

theorem expandStFuel_zero (obj root_doc : Doc) (path : String) (depth : Nat)
    (visited_paths : List String) :
    expandStFuel 0 obj root_doc path depth visited_paths = none := rfl

theorem expandStFuel_succ (fuel : Nat) (obj root_doc : Doc) (path : String) (depth : Nat)
    (visited_paths : List String) :
    expandStFuel (fuel + 1) obj root_doc path depth visited_paths =
      (if MAX_DEPTH < depth then
        some (Doc.obj [("type", Doc.str "object"),
                       ("description", Doc.str ("Max expansion depth reached at " ++ path))],
              root_doc)
      else
        match obj with
        | Doc.obj kvs =>
          match kvs.find? (fun kv => decide (kv.1 = "$ref")) with
          | some refkv =>
            let ref_path := refkv.2
            let tracking_key := path ++ ":" ++ pyStr ref_path
            if tracking_key ∈ visited_paths then
              some (Doc.obj [("type", Doc.str "object"),
                             ("description", Doc.str ("Circular reference: " ++ pyStr ref_path))],
                    root_doc)
            else
              match resolve_ref_pointer ref_path root_doc with
              | Except.error e =>
                some (Doc.obj [("type", Doc.str "object"),
                               ("description",
                                Doc.str ("Error resolving " ++ pyStr ref_path ++ ": " ++ e))],
                      root_doc)
              | Except.ok resolved0 =>
                let resolved := deepcopy resolved0
                let other_props := kvs.filter (fun kv => !(decide (kv.1 = "$ref")))
                let merged :=
                  if other_props.isEmpty then resolved else mergeOther resolved other_props
                expandStFuel fuel merged root_doc (path ++ "->" ++ pyStr ref_path) (depth + 1)
                  (tracking_key :: visited_paths)
          | none =>
            match goStKVs (expandStFuel fuel) kvs root_doc path depth visited_paths with
            | some (kvs', root') => some (Doc.obj kvs', root')
            | none => none
        | Doc.arr items =>
          match goStArr (expandStFuel fuel) items root_doc path 0 depth visited_paths with
          | some (items', root') => some (Doc.arr items', root')
          | none => none
        | d => some (d, root_doc)) := rfl

theorem goStKVs_rel {recurSt : Doc → Doc → String → Nat → List String → Option (Doc × Doc)}
    {recurFl : Doc → Doc → String → Nat → List String → Option (Doc × Bool)}
    (hrel : ∀ v ro p d vis, recurSt v ro p d vis = (recurFl v ro p d vis).map
      (fun rb => (rb.1, ro))) :
    ∀ kvs root_doc path depth visited,
      goStKVs recurSt kvs root_doc path depth visited =
        (goKVs recurFl kvs root_doc path depth visited).map (fun lb => (lb.1, root_doc)) := by
  intro kvs
  induction kvs with
  | nil => intro root path depth visited; rfl
  | cons kv rest ih =>
    intro root path depth visited
    obtain ⟨k, v⟩ := kv
    rw [goStKVs, goKVs, hrel]
    cases hv : recurFl v root (path ++ "." ++ k) depth visited with
    | none => rfl
    | some vf =>
      obtain ⟨v', f1⟩ := vf
      simp only [Option.map_some']
      rw [ih root path depth visited]
      cases hrest : goKVs recurFl rest root path depth visited with
      | none => rfl
      | some rf => rfl

theorem goStArr_rel {recurSt : Doc → Doc → String → Nat → List String → Option (Doc × Doc)}
    {recurFl : Doc → Doc → String → Nat → List String → Option (Doc × Bool)}
    (hrel : ∀ v ro p d vis, recurSt v ro p d vis = (recurFl v ro p d vis).map
      (fun rb => (rb.1, ro))) :
    ∀ items root_doc path i depth visited,
      goStArr recurSt items root_doc path i depth visited =
        (goArr recurFl items root_doc path i depth visited).map (fun lb => (lb.1, root_doc)) := by
  intro items
  induction items with
  | nil => intro root path i depth visited; rfl
  | cons d rest ih =>
    intro root path i depth visited
    rw [goStArr, goArr, hrel]
    cases hv : recurFl d root (path ++ "[" ++ toString i ++ "]") depth visited with
    | none => rfl
    | some vf =>
      obtain ⟨d', f1⟩ := vf
      simp only [Option.map_some']
      rw [ih root path (i + 1) depth visited]
      cases hrest : goArr recurFl rest root path (i + 1) depth visited with
      | none => rfl
      | some rf => rfl

/-- The state-threading evaluator returns the fueled evaluator's result
and hands the root document back unchanged: nothing ever writes to it. -/
theorem expandStFuel_rel :
    ∀ (f : Nat) (obj root_doc : Doc) (path : String) (depth : Nat) (visited : List String),
      expandStFuel f obj root_doc path depth visited =
        (expandFuel f obj root_doc path depth visited).map (fun rb => (rb.1, root_doc)) := by
  intro f
  induction f with
  | zero => intro obj root path depth visited; rfl
  | succ f ih =>
    intro obj root path depth visited
    rw [expandStFuel_succ, expandFuel_succ]
    by_cases hd : MAX_DEPTH < depth
    · rw [if_pos hd, if_pos hd]
      rfl
    · rw [if_neg hd, if_neg hd]
      cases obj with
      | obj kvs =>
        cases hfind : kvs.find? (fun kv => decide (kv.1 = "$ref")) with
        | some refkv =>
          simp only [hfind]
          by_cases hmem : (path ++ ":" ++ pyStr refkv.2) ∈ visited
          · rw [if_pos hmem, if_pos hmem]
            rfl
          · rw [if_neg hmem, if_neg hmem]
            cases hres : resolve_ref_pointer refkv.2 root with
            | error e => simp only [hres]; rfl
            | ok resolved0 =>
              simp only [hres]
              exact ih _ root _ _ _
        | none =>
          simp only [hfind]
          rw [goStKVs_rel (fun v ro p d vis => ih v ro p d vis) kvs root path depth visited]
          cases hgo : goKVs (expandFuel f) kvs root path depth visited with
          | none => rfl
          | some lb => rfl
      | arr items =>
        simp only [goStArr_rel (fun v ro p d vis => ih v ro p d vis) items root path 0 depth
          visited]
        cases hgo : goArr (expandFuel f) items root path 0 depth visited with
        | none => rfl
        | some lb => rfl
      | null => rfl
      | bool b => rfl
      | num n => rfl
      | str s => rfl

/-- The self-referential schema of the self-cycle test:
`A = {"$ref": "#/components/schemas/A"}`. -/
def schemaA : Doc := Doc.obj [("$ref", Doc.str "#/components/schemas/A")]

/-- A document whose only schema component is the self-referential `A`. -/
def docA : Doc :=
  Doc.obj [("components", Doc.obj [("schemas", Doc.obj [("A", schemaA)])])]

/-- The location reached after following the self-reference eleven times
(`depth` 0 through 10), where the depth guard fires. -/
def selfRefPath : String :=
  (List.range 11).foldl (fun s _ => s ++ "->#/components/schemas/A") "root"

/-- Fifteen schema components `S1 … S15`, each a bare reference to the
next (`S15` references the absent `S16`; expansion never gets there). -/
def chainSchemas : List (String × Doc) :=
  (List.range 15).map (fun i =>
    ("S" ++ toString (i + 1),
     Doc.obj [("$ref", Doc.str ("#/components/schemas/S" ++ toString (i + 2)))]))

def chainDoc : Doc :=
  Doc.obj [("components", Doc.obj [("schemas", Doc.obj chainSchemas)])]

def chainEntry : Doc := Doc.obj [("$ref", Doc.str "#/components/schemas/S1")]

/-- The location reached after following `S1 → … → S11`. -/
def chainPath : String :=
  (List.range 11).foldl (fun s i => s ++ "->#/components/schemas/S" ++ toString (i + 1)) "root"

/-- The sibling-override document: `Pet` with an original description. -/
def petDoc : Doc :=
  Doc.obj [("components", Doc.obj [("schemas", Doc.obj [("Pet",
    Doc.obj [("type", Doc.str "object"), ("description", Doc.str "original")])])])]

def petRefNode : Doc :=
  Doc.obj [("$ref", Doc.str "#/components/schemas/Pet"), ("description", Doc.str "override")]

/-- Missing-target document: one dangling reference beside a healthy
sibling subtree. -/
def missDoc : Doc :=
  Doc.obj [("components", Doc.obj [("schemas", Doc.obj [])]),
           ("paths", Doc.obj [
             ("a", Doc.obj [("$ref", Doc.str "#/components/schemas/DoesNotExist")]),
             ("b", Doc.obj [("x", Doc.num 1)])])]

theorem find?_map_override {b : List (String × Doc)} {k : String} {vb : Doc}
    (hb : b.find? (fun kv => decide (kv.1 = k)) = some (k, vb)) :
    ∀ (a : List (String × Doc)) (va : Doc),
      a.find? (fun kv => decide (kv.1 = k)) = some (k, va) →
      (a.map (pyDictOverride b)).find? (fun kv => decide (kv.1 = k)) = some (k, vb) := by
  intro a
  induction a with
  | nil => intro va ha; simp at ha
  | cons kv0 a' ih =>
    intro va ha
    obtain ⟨k0, v0⟩ := kv0
    rw [List.map_cons]
    by_cases hk : k0 = k
    · subst hk
      have hov : pyDictOverride b (k0, v0) = (k0, vb) := by
        rw [pyDictOverride]
        rw [show (k0, v0).1 = k0 from rfl, hb]
      rw [hov]
      exact List.find?_cons_of_pos _ (by simp)
    · have ha' : a'.find? (fun kv => decide (kv.1 = k)) = some (k, va) := by
        rw [List.find?_cons_of_neg _ (by simp [hk])] at ha
        exact ha
      have hfst : (pyDictOverride b (k0, v0)).1 = k0 := by
        rw [pyDictOverride]
        cases hbf : b.find? (fun kv2 => decide (kv2.1 = (k0, v0).1)) with
        | none => rfl
        | some kv2 => rfl
      rw [List.find?_cons_of_neg _ (by simp [hfst, hk])]
      exact ih va ha'

/-- In the Python dict merge `{**a, **b}`, a key present in both mappings
ends up bound to the `b` value: the sibling keys win on collision. -/
theorem pyDictMerge_sibling_wins :
    ∀ (a b : List (String × Doc)) (k : String) (va vb : Doc),
      a.find? (fun kv => decide (kv.1 = k)) = some (k, va) →
      b.find? (fun kv => decide (kv.1 = k)) = some (k, vb) →
      (pyDictMerge a b).find? (fun kv => decide (kv.1 = k)) = some (k, vb) := by
  intro a b k va vb ha hb
  rw [pyDictMerge, List.find?_append, find?_map_override hb a va ha]
  rfl

/-- C1: for every input document tree and root, the tree returned by
`expand_refs` contains no mapping node carrying the key `$ref` at any
position — every reference node is replaced either by its resolved,
recursively expanded value or by a placeholder object, including nodes
nested inside resolved targets. -/
theorem expand_refs_no_ref_in_output :
    ∀ (obj root_doc : Doc) (path : String) (depth : Nat) (visited_paths : List String),
      containsRef (expand_refs obj root_doc path depth visited_paths) = false := by
  intro obj root_doc path depth visited_paths
  obtain ⟨f, b, hf⟩ := expandFuel_agrees obj root_doc path depth visited_paths
  exact expandFuel_noref f obj root_doc path depth visited_paths _ b hf

/-- C3: starting from the defaults (`path = "root"`, `depth = 0`, empty
visited set), the branch testing membership of the tracking key in the
visited set never fires on any input: the instrumented evaluator runs to
completion with its circular-reference flag still `false`, and computes
exactly `expand_refs`. -/
theorem circular_branch_unreachable :
    ∀ (obj root_doc : Doc), ∃ f r,
      expandFuel f obj root_doc "root" 0 [] = some (r, false) ∧
      expand_refs obj root_doc "root" 0 [] = r := by
  intro obj root_doc
  obtain ⟨f, b, hf⟩ := expandFuel_agrees obj root_doc "root" 0 []
  have hb := expandFuel_flag f obj root_doc "root" 0 [] _ b (VisitedOk_nil "root") hf
  subst hb
  exact ⟨f, _, hf, rfl⟩

/-- C7: a document containing no `$ref` key anywhere expands to itself —
same keys in the same order, same sequence elements, identical scalars
(the depth guard cannot fire because the depth stays 0). -/
theorem expand_identity_on_ref_free :
    ∀ D : Doc, containsRef D = false → expand_refs D D "root" 0 [] = D := by
  intro D hfree
  obtain ⟨f, b, hf⟩ := expandFuel_agrees D D "root" 0 []
  exact expandFuel_id f D D "root" 0 [] _ b hfree (by decide) hf

def refFreeSample : Doc :=
  Doc.obj [("a", Doc.arr [Doc.num 1, Doc.str "x"]),
           ("b", Doc.obj [("c", Doc.null), ("ok", Doc.bool true)])]

theorem expand_identity_on_ref_free_witness :
    containsRef refFreeSample = false ∧
    expand_refs refFreeSample refFreeSample "root" 0 [] = refFreeSample :=
  ⟨rfl, expand_identity_on_ref_free refFreeSample rfl⟩

/-- C8: `expand_refs` never mutates the root document: threading the
root through the execution as explicit state returns it unchanged,
together with the pure function's result. -/
theorem expand_refs_root_unmutated :
    ∀ (obj root_doc : Doc) (path : String) (depth : Nat) (visited_paths : List String),
      ∃ f r, expandStFuel f obj root_doc path depth visited_paths = some (r, root_doc) ∧
        expand_refs obj root_doc path depth visited_paths = r := by
  intro obj root_doc path depth visited_paths
  obtain ⟨f, b, hf⟩ := expandFuel_agrees obj root_doc path depth visited_paths
  refine ⟨f, _, ?_, rfl⟩
  rw [expandStFuel_rel, hf]
  rfl

/-- C10: pointer segments are unescaped by replacing `~1` with `/` and
then `~0` with `~`, in that literal order, so `~01` addresses the
literal key `~1` (no double substitution) and `~1` addresses the literal
key `/` — the behaviour RFC 6901 prescribes. -/
theorem pointer_unescape_order :
    String.mk (unescape_segment ("~01".data)) = "~1" ∧
    String.mk (unescape_segment ("~1".data)) = "/" ∧
    (∀ part : List Char,
      unescape_segment part = pyReplace2 '~' '0' '~' (pyReplace2 '~' '1' '/' part)) ∧
    resolve_ref_pointer (Doc.str "#/~01") (Doc.obj [("~1", Doc.str "X")]) =
      Except.ok (Doc.str "X") ∧
    resolve_ref_pointer (Doc.str "#/~1") (Doc.obj [("/", Doc.str "Y")]) =
      Except.ok (Doc.str "Y") :=
  ⟨rfl, rfl, fun _ => rfl, rfl, rfl⟩

/-- C2 (counterexample): the self-referential schema `A` does not expand
to the circular-reference placeholder the claim promises: the tracking
key combines the growing location with the reference string, so it is
never found in the visited set. -/
theorem selfRefA_not_circular :
    expand_refs schemaA docA "root" 0 [] ≠
      Doc.obj [("type", Doc.str "object"),
               ("description", Doc.str "Circular reference: #/components/schemas/A")] := by
  have hval : expand_refs schemaA docA "root" 0 [] =
      Doc.obj [("type", Doc.str "object"),
               ("description", Doc.str ("Max expansion depth reached at " ++ selfRefPath))] :=
    expandFuel_sound (show expandFuel 50 schemaA docA "root" 0 [] =
      some (Doc.obj [("type", Doc.str "object"),
        ("description", Doc.str ("Max expansion depth reached at " ++ selfRefPath))], false)
      from rfl)
  rw [hval]
  decide

/-- C2 (amended): a schema `A` defined as
`{"$ref": "#/components/schemas/A"}` expands to the max-depth
placeholder `{"type": "object", "description": "Max expansion depth
reached at <location>"}` (the location being `root` followed by eleven
`->#/components/schemas/A` segments): the tracking key is never found in
the per-path visited set because the location component differs at every
recursion step, so expansion recurses to the depth limit instead of
returning the circular-reference placeholder. -/
theorem selfRefA_expands_to_depth_placeholder :
    expand_refs schemaA docA "root" 0 [] =
      Doc.obj [("type", Doc.str "object"),
               ("description", Doc.str ("Max expansion depth reached at " ++ selfRefPath))] :=
  expandFuel_sound (show expandFuel 50 schemaA docA "root" 0 [] =
    some (Doc.obj [("type", Doc.str "object"),
      ("description", Doc.str ("Max expansion depth reached at " ++ selfRefPath))], false)
    from rfl)

/-- C4: the document with a 15-component reference chain terminates with
the `Max expansion depth reached` placeholder; the guard returns that
placeholder whenever `depth` exceeds the fixed maximum `MAX_DEPTH = 10`;
and every dereference recurses with `depth + 1`. -/
theorem depth_bound_respected :
    (∃ loc, expand_refs chainEntry chainDoc "root" 0 [] =
      Doc.obj [("type", Doc.str "object"),
               ("description", Doc.str ("Max expansion depth reached at " ++ loc))]) ∧
    (∀ (obj root_doc : Doc) (path : String) (depth : Nat) (visited_paths : List String),
      MAX_DEPTH < depth →
      expand_refs obj root_doc path depth visited_paths =
        Doc.obj [("type", Doc.str "object"),
                 ("description", Doc.str ("Max expansion depth reached at " ++ path))]) ∧
    (∀ (kvs : List (String × Doc)) (refkv : String × Doc) (resolved0 root_doc : Doc)
       (path : String) (depth : Nat) (visited_paths : List String),
      ¬ MAX_DEPTH < depth →
      kvs.find? (fun kv => decide (kv.1 = "$ref")) = some refkv →
      (path ++ ":" ++ pyStr refkv.2) ∉ visited_paths →
      resolve_ref_pointer refkv.2 root_doc = Except.ok resolved0 →
      expand_refs (Doc.obj kvs) root_doc path depth visited_paths =
        expand_refs
          (if (kvs.filter (fun kv => !(decide (kv.1 = "$ref")))).isEmpty then deepcopy resolved0
           else mergeOther (deepcopy resolved0)
             (kvs.filter (fun kv => !(decide (kv.1 = "$ref")))))
          root_doc (path ++ "->" ++ pyStr refkv.2) (depth + 1)
          ((path ++ ":" ++ pyStr refkv.2) :: visited_paths)) := by
  refine ⟨⟨chainPath, ?_⟩, ?_, ?_⟩
  · exact expandFuel_sound (show expandFuel 60 chainEntry chainDoc "root" 0 [] =
      some (Doc.obj [("type", Doc.str "object"),
        ("description", Doc.str ("Max expansion depth reached at " ++ chainPath))], false)
      from rfl)
  · intro obj root_doc path depth visited_paths h
    exact expand_refs_guard h
  · intro kvs refkv resolved0 root_doc path depth visited_paths hd hfind hmem hres
    exact expand_refs_refstep hd hfind hmem hres

theorem depth_bound_respected_witness :
    expand_refs Doc.null Doc.null "root" 11 [] =
      Doc.obj [("type", Doc.str "object"),
               ("description", Doc.str ("Max expansion depth reached at " ++ "root"))] ∧
    expand_refs (Doc.obj [("$ref", Doc.str "#/a")]) (Doc.obj [("a", Doc.num 5)]) "root" 0 [] =
      expand_refs
        (if (([("$ref", Doc.str "#/a")] : List (String × Doc)).filter
              (fun kv => !(decide (kv.1 = "$ref")))).isEmpty
         then deepcopy (Doc.num 5)
         else mergeOther (deepcopy (Doc.num 5))
           (([("$ref", Doc.str "#/a")] : List (String × Doc)).filter
             (fun kv => !(decide (kv.1 = "$ref")))))
        (Doc.obj [("a", Doc.num 5)])
        ("root" ++ "->" ++ pyStr (Doc.str "#/a")) (0 + 1)
        (("root" ++ ":" ++ pyStr (Doc.str "#/a")) :: []) :=
  ⟨depth_bound_respected.2.1 Doc.null Doc.null "root" 11 [] (by decide),
   depth_bound_respected.2.2 [("$ref", Doc.str "#/a")] ("$ref", Doc.str "#/a") (Doc.num 5)
     (Doc.obj [("a", Doc.num 5)]) "root" 0 [] (by decide) rfl (by simp) rfl⟩

/-- C5: the reference node with a `description` sibling expands to the
`Pet` target with the sibling overriding the target's description; in
general, when a reference resolves to a mapping and sibling keys exist,
the siblings are overlaid onto a copy of the target before the merged
node is expanded at `depth + 1`, and on key collision the merge binds
the sibling's value. -/
theorem sibling_override_merge :
    expand_refs petRefNode petDoc "root" 0 [] =
      Doc.obj [("type", Doc.str "object"), ("description", Doc.str "override")] ∧
    (∀ (kvs : List (String × Doc)) (refkv : String × Doc) (rkvs : List (String × Doc))
       (root_doc : Doc) (path : String) (depth : Nat) (visited_paths : List String),
      ¬ MAX_DEPTH < depth →
      kvs.find? (fun kv => decide (kv.1 = "$ref")) = some refkv →
      (path ++ ":" ++ pyStr refkv.2) ∉ visited_paths →
      resolve_ref_pointer refkv.2 root_doc = Except.ok (Doc.obj rkvs) →
      (kvs.filter (fun kv => !(decide (kv.1 = "$ref")))).isEmpty = false →
      expand_refs (Doc.obj kvs) root_doc path depth visited_paths =
        expand_refs
          (Doc.obj (pyDictMerge rkvs (kvs.filter (fun kv => !(decide (kv.1 = "$ref"))))))
          root_doc (path ++ "->" ++ pyStr refkv.2) (depth + 1)
          ((path ++ ":" ++ pyStr refkv.2) :: visited_paths)) ∧
    (∀ (a b : List (String × Doc)) (k : String) (va vb : Doc),
      a.find? (fun kv => decide (kv.1 = k)) = some (k, va) →
      b.find? (fun kv => decide (kv.1 = k)) = some (k, vb) →
      (pyDictMerge a b).find? (fun kv => decide (kv.1 = k)) = some (k, vb)) := by
  refine ⟨?_, ?_, pyDictMerge_sibling_wins⟩
  · exact expandFuel_sound (show expandFuel 20 petRefNode petDoc "root" 0 [] =
      some (Doc.obj [("type", Doc.str "object"), ("description", Doc.str "override")], false)
      from rfl)
  · intro kvs refkv rkvs root_doc path depth visited_paths hd hfind hmem hres hne
    rw [expand_refs_refstep hd hfind hmem hres]
    have hm :
        (if (kvs.filter (fun kv => !(decide (kv.1 = "$ref")))).isEmpty then
          deepcopy (Doc.obj rkvs)
         else mergeOther (deepcopy (Doc.obj rkvs))
           (kvs.filter (fun kv => !(decide (kv.1 = "$ref"))))) =
        Doc.obj (pyDictMerge rkvs (kvs.filter (fun kv => !(decide (kv.1 = "$ref"))))) := by
      rw [hne]
      rfl
    rw [hm]

theorem sibling_override_merge_witness :
    expand_refs (Doc.obj [("$ref", Doc.str "#/components/schemas/Pet"),
        ("description", Doc.str "override")]) petDoc "root" 0 [] =
      expand_refs
        (Doc.obj (pyDictMerge [("type", Doc.str "object"), ("description", Doc.str "original")]
          (([("$ref", Doc.str "#/components/schemas/Pet"),
             ("description", Doc.str "override")] : List (String × Doc)).filter
            (fun kv => !(decide (kv.1 = "$ref"))))))
        petDoc ("root" ++ "->" ++ pyStr (Doc.str "#/components/schemas/Pet")) (0 + 1)
        (("root" ++ ":" ++ pyStr (Doc.str "#/components/schemas/Pet")) :: []) ∧
    (pyDictMerge [("description", Doc.str "original")] [("description", Doc.str "override")]).find?
        (fun kv => decide (kv.1 = "description")) =
      some ("description", Doc.str "override") :=
  ⟨sibling_override_merge.2.1
     [("$ref", Doc.str "#/components/schemas/Pet"), ("description", Doc.str "override")]
     ("$ref", Doc.str "#/components/schemas/Pet")
     [("type", Doc.str "object"), ("description", Doc.str "original")]
     petDoc "root" 0 [] (by decide) rfl (by simp) rfl rfl,
   sibling_override_merge.2.2 [("description", Doc.str "original")]
     [("description", Doc.str "override")] "description" (Doc.str "original")
     (Doc.str "override") rfl rfl⟩

/-- C6: every reference-resolution failure — non-`#/` reference, missing
mapping key, non-numeric or out-of-range sequence index, descent into a
scalar — is caught inside expansion and replaced by the inline
`Error resolving <ref>: <message>` placeholder, and sibling subtrees of
the same document expand normally. -/
theorem resolution_failure_isolated :
    (∀ (kvs : List (String × Doc)) (refkv : String × Doc) (e : String) (root_doc : Doc)
       (path : String) (depth : Nat) (visited_paths : List String),
      ¬ MAX_DEPTH < depth →
      kvs.find? (fun kv => decide (kv.1 = "$ref")) = some refkv →
      (path ++ ":" ++ pyStr refkv.2) ∉ visited_paths →
      resolve_ref_pointer refkv.2 root_doc = Except.error e →
      expand_refs (Doc.obj kvs) root_doc path depth visited_paths =
        Doc.obj [("type", Doc.str "object"),
                 ("description",
                  Doc.str ("Error resolving " ++ pyStr refkv.2 ++ ": " ++ e))]) ∧
    (∀ root_doc : Doc, resolve_ref_pointer (Doc.str "http://example.com/x") root_doc =
      Except.error "External references not supported: http://example.com/x") ∧
    resolve_ref_pointer (Doc.str "#/components/schemas/DoesNotExist") missDoc =
      Except.error "'DoesNotExist'" ∧
    resolve_ref_pointer (Doc.str "#/a/x") (Doc.obj [("a", Doc.arr [Doc.num 1])]) =
      Except.error "invalid literal for int() with base 10: 'x'" ∧
    resolve_ref_pointer (Doc.str "#/a/7") (Doc.obj [("a", Doc.arr [Doc.num 1])]) =
      Except.error "list index out of range" ∧
    resolve_ref_pointer (Doc.str "#/a/b") (Doc.obj [("a", Doc.num 3)]) =
      Except.error "Cannot resolve path #/a/b" ∧
    expand_refs missDoc missDoc "root" 0 [] =
      Doc.obj [("components", Doc.obj [("schemas", Doc.obj [])]),
               ("paths", Doc.obj [
                 ("a", Doc.obj [("type", Doc.str "object"),
                   ("description", Doc.str
                     "Error resolving #/components/schemas/DoesNotExist: 'DoesNotExist'")]),
                 ("b", Doc.obj [("x", Doc.num 1)])])] := by
  refine ⟨?_, fun root_doc => rfl, rfl, rfl, rfl, rfl, ?_⟩
  · intro kvs refkv e root_doc path depth visited_paths hd hfind hmem hres
    exact expand_refs_error hd hfind hmem hres
  · exact expandFuel_sound (show expandFuel 20 missDoc missDoc "root" 0 [] =
      some (Doc.obj [("components", Doc.obj [("schemas", Doc.obj [])]),
        ("paths", Doc.obj [
          ("a", Doc.obj [("type", Doc.str "object"),
            ("description", Doc.str
              "Error resolving #/components/schemas/DoesNotExist: 'DoesNotExist'")]),
          ("b", Doc.obj [("x", Doc.num 1)])])], false) from rfl)

theorem resolution_failure_isolated_witness :
    expand_refs (Doc.obj [("$ref", Doc.str "#/components/schemas/DoesNotExist")]) missDoc
        "root" 0 [] =
      Doc.obj [("type", Doc.str "object"),
               ("description",
                Doc.str ("Error resolving " ++ pyStr (Doc.str "#/components/schemas/DoesNotExist")
                  ++ ": " ++ "'DoesNotExist'"))] :=
  resolution_failure_isolated.1 [("$ref", Doc.str "#/components/schemas/DoesNotExist")]
    ("$ref", Doc.str "#/components/schemas/DoesNotExist") "'DoesNotExist'" missDoc "root" 0 []
    (by decide) rfl (by simp) rfl

/-- C9: `expand_refs` terminates on every finite document tree — the
fueled evaluator reaches its value with some finite fuel — and the shape
of the recursion is as claimed: structural descent into mappings and
sequences keeps `depth` unchanged and never produces the max-depth
placeholder, while following a reference recurses with `depth + 1`. -/
theorem expand_refs_terminates :
    (∀ (obj root_doc : Doc) (path : String) (depth : Nat) (visited_paths : List String),
      ∃ f r b, expandFuel f obj root_doc path depth visited_paths = some (r, b) ∧
        expand_refs obj root_doc path depth visited_paths = r) ∧
    (∀ (kvs : List (String × Doc)) (root_doc : Doc) (path : String) (depth : Nat)
       (visited_paths : List String),
      ¬ MAX_DEPTH < depth →
      kvs.find? (fun kv => decide (kv.1 = "$ref")) = none →
      expand_refs (Doc.obj kvs) root_doc path depth visited_paths =
        Doc.obj (kvs.map (fun kv =>
          (kv.1, expand_refs kv.2 root_doc (path ++ "." ++ kv.1) depth visited_paths)))) ∧
    (∀ (items : List Doc) (root_doc : Doc) (path : String) (depth : Nat)
       (visited_paths : List String),
      ¬ MAX_DEPTH < depth →
      expand_refs (Doc.arr items) root_doc path depth visited_paths =
        Doc.arr (items.enum.map (fun it =>
          expand_refs it.2 root_doc (path ++ "[" ++ toString it.1 ++ "]") depth
            visited_paths))) ∧
    (∀ (kvs : List (String × Doc)) (refkv : String × Doc) (resolved0 root_doc : Doc)
       (path : String) (depth : Nat) (visited_paths : List String),
      ¬ MAX_DEPTH < depth →
      kvs.find? (fun kv => decide (kv.1 = "$ref")) = some refkv →
      (path ++ ":" ++ pyStr refkv.2) ∉ visited_paths →
      resolve_ref_pointer refkv.2 root_doc = Except.ok resolved0 →
      expand_refs (Doc.obj kvs) root_doc path depth visited_paths =
        expand_refs
          (if (kvs.filter (fun kv => !(decide (kv.1 = "$ref")))).isEmpty then deepcopy resolved0
           else mergeOther (deepcopy resolved0)
             (kvs.filter (fun kv => !(decide (kv.1 = "$ref")))))
          root_doc (path ++ "->" ++ pyStr refkv.2) (depth + 1)
          ((path ++ ":" ++ pyStr refkv.2) :: visited_paths)) := by
  refine ⟨?_, ?_, ?_, ?_⟩
  · intro obj root_doc path depth visited_paths
    obtain ⟨f, b, hf⟩ := expandFuel_agrees obj root_doc path depth visited_paths
    exact ⟨f, _, b, hf, rfl⟩
  · intro kvs root_doc path depth visited_paths hd hfind
    exact expand_refs_dict hd hfind
  · intro items root_doc path depth visited_paths hd
    exact expand_refs_arr hd
  · intro kvs refkv resolved0 root_doc path depth visited_paths hd hfind hmem hres
    exact expand_refs_refstep hd hfind hmem hres

theorem expand_refs_terminates_witness :
    expand_refs (Doc.obj [("a", Doc.num 1)]) Doc.null "root" 0 [] =
      Doc.obj (([("a", Doc.num 1)] : List (String × Doc)).map (fun kv =>
        (kv.1, expand_refs kv.2 Doc.null ("root" ++ "." ++ kv.1) 0 []))) ∧
    expand_refs (Doc.arr [Doc.num 1]) Doc.null "root" 0 [] =
      Doc.arr (([Doc.num 1] : List Doc).enum.map (fun it =>
        expand_refs it.2 Doc.null ("root" ++ "[" ++ toString it.1 ++ "]") 0 [])) ∧
    expand_refs (Doc.obj [("$ref", Doc.str "#/b")]) (Doc.obj [("b", Doc.str "z")]) "root" 0 [] =
      expand_refs
        (if (([("$ref", Doc.str "#/b")] : List (String × Doc)).filter
              (fun kv => !(decide (kv.1 = "$ref")))).isEmpty
         then deepcopy (Doc.str "z")
         else mergeOther (deepcopy (Doc.str "z"))
           (([("$ref", Doc.str "#/b")] : List (String × Doc)).filter
             (fun kv => !(decide (kv.1 = "$ref")))))
        (Doc.obj [("b", Doc.str "z")])
        ("root" ++ "->" ++ pyStr (Doc.str "#/b")) (0 + 1)
        (("root" ++ ":" ++ pyStr (Doc.str "#/b")) :: []) :=
  ⟨expand_refs_terminates.2.1 [("a", Doc.num 1)] Doc.null "root" 0 [] (by decide) rfl,
   expand_refs_terminates.2.2.1 [Doc.num 1] Doc.null "root" 0 [] (by decide),
   expand_refs_terminates.2.2.2 [("$ref", Doc.str "#/b")] ("$ref", Doc.str "#/b")
     (Doc.str "z") (Doc.obj [("b", Doc.str "z")]) "root" 0 [] (by decide) rfl (by simp) rfl⟩

end ExpandRefs
